import Mathlib

/-!
Verification of the schemathesis concurrent unit-testing engine and its
response-verification subsystem, shallowly embedded from
`src/schemathesis/runner/phases/unit/__init__.py` and the checks exercised by
`test/specs/openapi/test_checks.py`.

Pure per-event logic is translated directly from the source; multi-threaded
parts are modelled by quantifying over the per-iteration observations a thread
makes (the event dequeued, the flag values read), which covers every
interleaving at the granularity of the code's own check points.
-/

namespace Schemathesis

/-- Run status, ordered by severity INTERRUPTED > ERROR > FAILURE > SUCCESS. -/
inductive Status where
  | success
  | failure
  | error
  | interrupted
deriving DecidableEq, Repr

/-- Severity rank of a status. -/
def sev : Status → Nat
  | .success => 0
  | .failure => 1
  | .error => 2
  | .interrupted => 3

/-- Maximum of two statuses by severity. -/
def statusMax (a b : Status) : Status := if sev a ≤ sev b then b else a

/-- A scenario recorder: a label plus the number of recorded case entries
(`ScenarioRecorder(label=...)` starts empty). -/
structure ScenarioRecorder where
  label : String
  entries : Nat
deriving DecidableEq, Repr

/-- The closed tagged union of engine events, with the fields the engine logic
reads (`schemathesis.runner.events`). -/
inductive Event where
  | suiteStarted
  | scenarioStarted (label : String)
  | scenarioFinished (status : Status) (recorder : ScenarioRecorder) (isFinal : Bool)
  | nonFatalError (label : String) (relatedToOperation : Bool)
  | interrupted
  | suiteFinished (status : Status)
  | phaseFinished (status : Status)
deriving DecidableEq, Repr

def Event.isSuiteStarted : Event → Bool
  | .suiteStarted => true
  | _ => false

def Event.isSuiteFinished : Event → Bool
  | .suiteFinished _ => true
  | _ => false

def Event.isPhaseFinished : Event → Bool
  | .phaseFinished _ => true
  | _ => false

def Event.isInterruptedEvent : Event → Bool
  | .interrupted => true
  | _ => false

/-- Events a worker can place on the events queue (scenario-level events and
Interrupted); the suite/phase events are emitted only by the coordinator. -/
def Event.isWorkerEvent : Event → Bool
  | .scenarioStarted _ => true
  | .scenarioFinished _ _ _ => true
  | .nonFatalError _ _ => true
  | .interrupted => true
  | _ => false

/-- Whether an event is a ScenarioFinished carrying INTERRUPTED status. -/
def Event.isScenarioFinishedInterrupted : Event → Bool
  | .scenarioFinished .interrupted _ _ => true
  | _ => false

/-- The per-event aggregate status update of `execute`
(`unit/__init__.py` lines 58-68): a NonFatalError sets status to ERROR; a
ScenarioFinished with FAILURE/ERROR/INTERRUPTED raises the status unless it is
already ERROR/INTERRUPTED; finally, if `engine.is_interrupted` reads true, the
status is forced to INTERRUPTED. -/
def updateStatus (isInterrupted : Bool) (ev : Event) (status : Status) : Status :=
  let status :=
    match ev with
    | .nonFatalError _ _ => Status.error
    | _ => status
  let status :=
    match ev with
    | .scenarioFinished s _ _ =>
        if (status ≠ Status.error ∧ status ≠ Status.interrupted) ∧
            (s = Status.failure ∨ s = Status.error ∨ s = Status.interrupted) then
          s
        else status
    | _ => status
  if isInterrupted then Status.interrupted else status

/-- One iteration of the coordinator loop, as observed by the coordinator:
the result of `events_queue.get` (`none` models `queue.Empty`), the value of
`engine.is_stopped` read right after the get, the value of
`engine.is_interrupted` read during status updates, the value of
`engine.is_stopped` read at the end of the iteration, and whether all worker
threads were dead when the queue was empty. -/
structure CoordIter where
  item : Option Event
  stoppedAtGet : Bool
  interruptedFlag : Bool
  stoppedAfter : Bool
  allDead : Bool
deriving DecidableEq, Repr

/-- The coordinator event loop of `execute` (`unit/__init__.py` lines 51-74):
returns the list of yielded (forwarded) events and the final aggregate status. -/
def coordLoop : List CoordIter → Status → List Event × Status
  | [], st => ([], st)
  | it :: rest, st =>
    match it.item with
    | none => if it.allDead then ([], st) else coordLoop rest st
    | some ev =>
      if it.stoppedAtGet then ([], st)
      else
        let st1 := updateStatus it.interruptedFlag ev st
        if it.stoppedAfter then ([ev], st1)
        else
          let r := coordLoop rest st1
          (ev :: r.1, r.2)

/-- The full `execute` generator (`unit/__init__.py` lines 32-82): SuiteStarted
first, then the forwarded events of the coordinator loop; a KeyboardInterrupt
(modelled by `kb = true`, cutting the loop at the end of the given trace) forces
status INTERRUPTED and yields one Interrupted event; finally SuiteFinished and
PhaseFinished, both with the final status. -/
def executeModel (trace : List CoordIter) (kb : Bool) : List Event :=
  let r := coordLoop trace Status.success
  let fin := if kb then Status.interrupted else r.2
  Event.suiteStarted ::
    (r.1 ++ (if kb then [Event.interrupted] else []) ++
      [Event.suiteFinished fin, Event.phaseFinished fin])

/-! ## Worker side (`worker_task`, `unit/__init__.py` lines 85-157) -/

/-- ASCII uppercase of a string, as in Python's `str.upper()` on method names. -/
def strUpper (s : String) : String := String.mk (s.toList.map Char.toUpper)

/-- A per-operation schema error, as consumed by the worker's error branch
(fields `method` and `full_path`; `method` may be absent). -/
structure SchemaError where
  method : Option String
  full_path : String
deriving DecidableEq, Repr

/-- Python truthiness of `error.method` (`if error.method:`): a method is known
when it is present and non-empty. -/
def SchemaError.methodKnown (e : SchemaError) : Bool :=
  match e.method with
  | some m => !(m == "")
  | none => false

/-- The label built for a known method: `f"{error.method.upper()} {error.full_path}"`. -/
def SchemaError.label (e : SchemaError) : String :=
  match e.method with
  | some m => strUpper m ++ " " ++ e.full_path
  | none => e.full_path

/-- The events the worker enqueues for a schema-error item
(`unit/__init__.py` lines 119-155): with a known (truthy) method, a
ScenarioStarted, a NonFatalError related to an operation, and a ScenarioFinished
with status ERROR and a fresh empty recorder marked final; otherwise a single
NonFatalError not related to an operation, labeled with the full path. -/
def errorEvents (e : SchemaError) : List Event :=
  match e.method with
  | some m =>
    if !(m == "") then
      [Event.scenarioStarted e.label,
       Event.nonFatalError e.label true,
       Event.scenarioFinished Status.error ⟨"Error", 0⟩ true]
    else
      [Event.nonFatalError e.full_path false]
  | none => [Event.nonFatalError e.full_path false]

/-- Outcome of executing one generated case inside the executor: the case
passed its checks, a check failed, or executing it raised an unexpected
exception. -/
inductive CaseResult where
  | passed
  | failed (msg : String)
  | raised (msg : String)
deriving DecidableEq, Repr

/-- An API operation together with the outcomes of the cases generated for it. -/
structure Operation where
  label : String
  cases : List CaseResult
deriving DecidableEq, Repr

/-- Events recorded for one case outcome: an unexpected exception is captured
and converted into a NonFatalError related to the operation; passes and check
failures are recorded in the scenario recorder only. -/
def caseEvents : CaseResult → List Event
  | .passed => []
  | .failed _ => []
  | .raised msg => [Event.nonFatalError msg true]

/-- The status a scenario finishes with, from its case outcomes. -/
def scenarioStatus (cs : List CaseResult) : Status :=
  if cs.any (fun c => match c with | .raised _ => true | _ => false) then Status.error
  else if cs.any (fun c => match c with | .failed _ => true | _ => false) then Status.failure
  else Status.success

/-- Modelled from the spec: `run_test` (in `runner/phases/unit/_executor.py`,
which is not under src/). Per the spec, the executor emits ScenarioStarted once
per scenario, runs every case, captures any failure or unexpected exception
raised while executing a case and converts it into a NonFatalError event, and
emits ScenarioFinished once when the case sequence for the operation ends. -/
def run_test (op : Operation) : List Event :=
  Event.scenarioStarted op.label ::
    (op.cases.flatMap caseEvents ++
      [Event.scenarioFinished (scenarioStatus op.cases) ⟨op.label, op.cases.length⟩ true])

/-- An item delivered by the task producer: an operation or a schema error
(`Ok` / `Err` of `schemathesis.core.result`). -/
inductive Item where
  | ok (op : Operation)
  | err (e : SchemaError)
deriving DecidableEq, Repr

/-- The events a worker enqueues for one pulled item
(`unit/__init__.py` lines 100-155). -/
def processItem : Item → List Event
  | .ok op => run_test op
  | .err e => errorEvents e

/-- One worker-loop iteration as observed by the worker: the value of
`ctx.is_stopped` read at the loop head, and the item `producer.next_operation()`
returned (`none` models an exhausted producer). -/
abbrev WorkerStep := Bool × Option Item

/-- The worker loop of `worker_task` (`unit/__init__.py` lines 95-155): exit
when the stop flag is observed or the producer is exhausted, otherwise process
the pulled item and continue. Returns the events put on the events queue. -/
def workerLoop : List WorkerStep → List Event
  | [] => []
  | (stopped, item) :: rest =>
    if stopped then []
    else
      match item with
      | none => []
      | some it => processItem it ++ workerLoop rest

/-- The items the worker actually dispatches: those of the maximal prefix of
iterations where the stop flag read false and the producer returned an item. -/
def liveItems (tr : List WorkerStep) : List Item :=
  (tr.takeWhile (fun s => !s.1 && s.2.isSome)).filterMap (fun s => s.2)

/-- The only exception that crosses the worker loop in the model: cooperative
cancellation. Test-execution failures never escape `run_test` (see its
doc comment), so no other exception reaches the worker-level handler. -/
inductive WorkerExn where
  | keyboardInterrupt
deriving DecidableEq, Repr

/-- The body of `worker_task` inside the `try`: either it runs the loop to
completion, or a KeyboardInterrupt arrives after `k` iterations, cutting the
loop short and escaping as an exception. -/
def workerBody (tr : List WorkerStep) : Option Nat → List Event × Option WorkerExn
  | none => (workerLoop tr, none)
  | some k => (workerLoop (tr.take k), some WorkerExn.keyboardInterrupt)

/-- `worker_task` (`unit/__init__.py` lines 85-157): the only worker-level
handler catches KeyboardInterrupt and converts it into one Interrupted event;
the returned pair is (events put on the queue, exception escaping the thread). -/
def worker_task (tr : List WorkerStep) (kb : Option Nat) : List Event × Option WorkerExn :=
  match workerBody tr kb with
  | (evs, some .keyboardInterrupt) => (evs ++ [Event.interrupted], none)
  | (evs, none) => (evs, none)

/-! ## Task producer (modelled) -/

/-- Modelled from the spec: `TaskProducer.next_operation`
(in `runner/phases/unit/_pool.py`, which is not under src/). The producer is a
thread-safe cursor over the finite operation sequence whose `next()` atomically
pops the next undelivered item; a concurrent execution is an arbitrary schedule
of such atomic calls, given as the list of caller ids in the order their calls
entered the critical section. Returns the list pairing each caller with the
item it received (`none` once the sequence was exhausted). -/
def producerRun : List Nat → List Item → List (Nat × Option Item)
  | [], _ => []
  | c :: cs, [] => (c, none) :: producerRun cs []
  | c :: cs, it :: rest => (c, some it) :: producerRun cs rest

/-! ## Resource path matcher (modelled) -/

/-- A bound variable value: a string or an integer (compared after coercion to
string form). -/
inductive Value where
  | str (s : String)
  | int (n : Int)
deriving DecidableEq, Repr

/-- String form of a bound value: an integer equals its string representation. -/
def Value.toStr : Value → String
  | .str s => s
  | .int n => toString n

/-- A resource path: a path template plus variable-name to value bindings. -/
structure ResourcePath where
  value : String
  vars : List (String × Value)
deriving Repr

/-- Split a character sequence on every slash (each slash separates segments,
so a leading slash yields an initial empty segment). -/
def splitOnSlash : List Char → List (List Char)
  | [] => [[]]
  | c :: rest =>
    if c = '/' then [] :: splitOnSlash rest
    else
      match splitOnSlash rest with
      | seg :: segs => (c :: seg) :: segs
      | [] => [[c]]

/-- Strip one trailing slash from a path (repeated slashes are not further
collapsed); a path of just a slash becomes the empty path. -/
def stripTrailingSlash (cs : List Char) : List Char :=
  if cs.getLast? = some '/' then cs.dropLast else cs

/-- Resolve one segment: a placeholder segment of the form `\x7bname\x7d` is
substituted with its bound value coerced to string form; any other segment is
kept as written. -/
def resolveSegment (vars : List (String × Value)) (seg : List Char) : String :=
  if seg.head? = some '{' ∧ seg.getLast? = some '}' then
    let name := String.mk (seg.drop 1).dropLast
    match vars.lookup name with
    | some v => v.toStr
    | none => String.mk seg
  else String.mk seg

/-- The concrete segment sequence of a resource path: normalize by stripping
one trailing slash, split into segments, substitute placeholder segments with
their bound values. -/
def segments (p : ResourcePath) : List String :=
  (splitOnSlash (stripTrailingSlash p.value.toList)).map (resolveSegment p.vars)

/-- The conservative singular/plural fold: two segments count as equal when
they match exactly or one equals the other with a trailing `s` added. -/
def segmentEq (a b : String) : Bool :=
  a == b || (a ++ "s") == b || a == (b ++ "s")

/-- Corresponding-segment comparison over two segment sequences (compares up to
the shorter length). -/
def segmentsMatch : List String → List String → Bool
  | [], _ => true
  | _ :: _, [] => true
  | a :: as_, b :: bs => segmentEq a b && segmentsMatch as_ bs

/-- Modelled from the spec: `_is_prefix_operation`
(in `specs/openapi/checks.py`, which is not under src/; its behaviour is pinned
by `test_is_prefix_operation` in `test/specs/openapi/test_checks.py`). LHS is a
prefix of RHS iff LHS's segment count is at most RHS's and every corresponding
resolved segment is equal up to the singular/plural fold. -/
def is_prefix_operation (lhs rhs : ResourcePath) : Bool :=
  decide ((segments lhs).length ≤ (segments rhs).length) &&
    segmentsMatch (segments lhs) (segments rhs)

/-! ## positive_data_acceptance (modelled) -/

/-- Generation mode of a case or component. -/
inductive GenerationMode where
  | positive
  | negative
deriving DecidableEq, Repr

/-- A structured check failure; `title` is what the failure message leads with. -/
structure Failure where
  title : String
deriving DecidableEq, Repr

/-- The three decimal digit characters of a status code (status codes are
three-digit numbers). -/
def codeDigits (code : Nat) : List Char :=
  [Nat.digitChar (code / 100 % 10), Nat.digitChar (code / 10 % 10), Nat.digitChar (code % 10)]

/-- Character-wise matching of an allow-list entry against the digits of a
status code: `X` is a placeholder matching any digit, any other character must
match the digit exactly; lengths must agree. -/
def matchChars : List Char → List Char → Bool
  | [], [] => true
  | e :: es, d :: ds => (e == 'X' || e == d) && matchChars es ds
  | _, _ => false

/-- Whether one allow-list entry matches a status code: an exact three-digit
code matches itself, and a wildcard class with trailing `X` placeholders over
the leading digits matches every code of that class. -/
def entryMatches (entry : String) (code : Nat) : Bool :=
  matchChars entry.toList (codeDigits code)

/-- Modelled from the spec: `positive_data_acceptance`
(in `specs/openapi/checks.py`, which is not under src/; its behaviour is pinned
by `test_positive_data_acceptance`). Applies only to cases generated in
POSITIVE mode; fails, with a failure whose title mentions rejected positive
data, unless the response status matches an entry of the configured allow-list;
NEGATIVE-mode cases are exempt unconditionally. -/
def positive_data_acceptance (allowedStatuses : List String) (mode : GenerationMode)
    (statusCode : Nat) : Option Failure :=
  match mode with
  | .negative => none
  | .positive =>
    if allowedStatuses.any (fun e => entryMatches e statusCode) then none
    else some ⟨"Rejected positive data"⟩

/-! ## has_only_additional_properties_in_non_body_parameters (modelled) -/

/-- The components of a case. -/
inductive ComponentKind where
  | query
  | pathParameters
  | headers
  | cookies
  | body
deriving DecidableEq, Repr

/-- The non-body components: query, path parameters, headers, cookies. -/
def nonBodyKinds : List ComponentKind :=
  [ComponentKind.query, ComponentKind.pathParameters, ComponentKind.headers,
   ComponentKind.cookies]

/-- A generated case: per-component generation metadata (components absent from
`meta` were not generated at all) and the concrete key-value content of each
non-body component. -/
structure TestCase where
  meta : List (ComponentKind × GenerationMode)
  query : List (String × Value)
  pathParameters : List (String × Value)
  headers : List (String × Value)
  cookies : List (String × Value)

/-- The generation mode recorded for a component of a case, if any. -/
def componentMode (c : TestCase) (k : ComponentKind) : Option GenerationMode :=
  c.meta.lookup k

/-- The concrete content of a non-body component of a case. -/
def componentValues (c : TestCase) : ComponentKind → List (String × Value)
  | .query => c.query
  | .pathParameters => c.pathParameters
  | .headers => c.headers
  | .cookies => c.cookies
  | .body => []

/-- The declared parameter schema of one component: each declared key with the
predicate its value must satisfy (type/minimum/maximum constraints). -/
abbrev ParamSchema := List (String × (Value → Bool))

/-- The declared schemas of an operation, per component. -/
structure OperationSchema where
  params : ComponentKind → ParamSchema

/-- Whether a component's content has at least one key not declared in its
schema. -/
def hasExtraKeys (schema : ParamSchema) (vals : List (String × Value)) : Bool :=
  vals.any (fun kv => !(schema.any (fun p => p.1 == kv.1)))

/-- Whether every declared key present in the component satisfies its declared
constraint. -/
def satisfiesDeclared (schema : ParamSchema) (vals : List (String × Value)) : Bool :=
  vals.all (fun kv =>
    match schema.find? (fun p => p.1 == kv.1) with
    | some p => p.2 kv.2
    | none => true)

/-- Whether a component's sole deviation from its declared schema is the
presence of undeclared extra keys (it has extra keys, and no declared
constraint is violated). -/
def onlyAdditionalProperties (schema : ParamSchema) (vals : List (String × Value)) : Bool :=
  hasExtraKeys schema vals && satisfiesDeclared schema vals

/-- Modelled from the spec: `has_only_additional_properties_in_non_body_parameters`
(in `specs/openapi/checks.py`, which is not under src/; its behaviour is pinned
by `test_has_only_additional_properties_in_non_body_parameters`). True iff at
least one non-body component was generated in NEGATIVE mode and every
negatively generated non-body component's only deviation from its declared
schema is the presence of undeclared extra keys; POSITIVE or absent components
are ignored. -/
def has_only_additional_properties_in_non_body_parameters (op : OperationSchema)
    (c : TestCase) : Bool :=
  let negs := nonBodyKinds.filter (fun k => componentMode c k == some GenerationMode.negative)
  !negs.isEmpty && negs.all (fun k => onlyAdditionalProperties (op.params k) (componentValues c k))

/-! ## Concrete schemas and cases used by the examples -/

/-- The declared constraint of the sample schema's parameters:
`\x7b"type": "integer", "minimum": 5\x7d`. -/
def sampleValueMin5 : Value → Bool
  | .int n => decide (5 ≤ n)
  | _ => false

/-- The sample operation schema of `test_checks.py`: a query parameter `key`
and a header `X-Key`, both integers with minimum 5. -/
def sampleSchema : OperationSchema :=
  ⟨fun k => match k with
    | .query => [("key", sampleValueMin5)]
    | .headers => [("X-Key", sampleValueMin5)]
    | _ => []⟩

/-! # Theorems -/

/-- C2 counterexample: a schema-error item whose method is unknown makes the
worker emit exactly one event (a NonFatalError not related to an operation),
not three; in particular no ScenarioStarted and no ScenarioFinished are
emitted for it. -/
theorem c2_counterexample :
    errorEvents ⟨none, "/users"⟩ = [Event.nonFatalError "/users" false] ∧
    (errorEvents ⟨none, "/users"⟩).length = 1 ∧
    (∀ ev ∈ errorEvents ⟨none, "/users"⟩,
      (∀ l, ev ≠ Event.scenarioStarted l) ∧
      ∀ s r f, ev ≠ Event.scenarioFinished s r f) := by
  refine ⟨rfl, rfl, ?_⟩
  intro ev hev
  simp only [errorEvents, List.mem_singleton] at hev
  subst hev
  exact ⟨fun l => by simp, fun s r f => by simp⟩

/-- C2 (amended): for a schema-error item with a known (truthy) method the
worker emits exactly three events in order — ScenarioStarted, NonFatalError
related to an operation, ScenarioFinished with status ERROR and an empty
recorder marked final; with an unknown method it emits exactly one
NonFatalError not related to an operation, labeled with the full path. -/
theorem c2_amended (e : SchemaError) :
    (e.methodKnown = true →
      errorEvents e =
        [Event.scenarioStarted e.label,
         Event.nonFatalError e.label true,
         Event.scenarioFinished Status.error ⟨"Error", 0⟩ true]) ∧
    (e.methodKnown = false →
      errorEvents e = [Event.nonFatalError e.full_path false]) := by
  obtain ⟨m, p⟩ := e
  cases m with
  | none => simp [SchemaError.methodKnown, errorEvents]
  | some m =>
    by_cases hm : m = ""
    · subst hm
      simp [SchemaError.methodKnown, errorEvents]
    · simp [SchemaError.methodKnown, errorEvents, hm]

/-- C2 witness: the amended characterization evaluated on a concrete error with
a known method. -/
theorem c2_witness :
    errorEvents ⟨some "get", "/users"⟩ =
      [Event.scenarioStarted (SchemaError.label ⟨some "get", "/users"⟩),
       Event.nonFatalError (SchemaError.label ⟨some "get", "/users"⟩) true,
       Event.scenarioFinished Status.error ⟨"Error", 0⟩ true] :=
  (c2_amended ⟨some "get", "/users"⟩).1 (by decide)

/-- C4: under any schedule of concurrent callers (the order their atomic calls
enter the producer's critical section), the j-th call overall is answered with
the j-th item of the underlying sequence, so each of the K items is delivered
to exactly one caller, in order, with no duplicates and no gaps; every call
after exhaustion (j ≥ K) receives none. -/
theorem c4_producer_exactly_once (callers : List Nat) (items : List Item) :
    (producerRun callers items).length = callers.length ∧
    (∀ j : Nat,
      (producerRun callers items).get? j =
        (callers.get? j).map (fun c => (c, items.get? j))) ∧
    (producerRun callers items).filterMap (fun d => d.2) =
      items.take callers.length := by
  induction callers generalizing items with
  | nil =>
    refine ⟨rfl, ?_, rfl⟩
    intro j
    simp [producerRun]
  | cons c cs ih =>
    cases items with
    | nil =>
      obtain ⟨ih1, ih2, ih3⟩ := ih ([] : List Item)
      refine ⟨by simpa [producerRun] using ih1, ?_, ?_⟩
      · intro j
        cases j with
        | zero => simp [producerRun]
        | succ k =>
          simpa [producerRun] using ih2 k
      · simpa [producerRun] using ih3
    | cons it rest =>
      obtain ⟨ih1, ih2, ih3⟩ := ih rest
      refine ⟨by simpa [producerRun] using ih1, ?_, ?_⟩
      · intro j
        cases j with
        | zero => simp [producerRun]
        | succ k =>
          simpa [producerRun] using ih2 k
      · simpa [producerRun] using ih3

/-- C6 counterexample: an event that a worker placed on the events queue (and
that the coordinator even dequeued) is discarded, not yielded, when the
coordinator observes the stop flag at the post-get check — the interleaving
enqueue, then stop-flag set, then dequeue is legal, so a recorded event from
before the stop is lost. -/
theorem c6_counterexample :
    (coordLoop
      [⟨some (Event.nonFatalError "boom" true), true, false, false, false⟩]
      Status.success).1 = [] ∧
    Event.nonFatalError "boom" true ∉
      executeModel
        [⟨some (Event.nonFatalError "boom" true), true, false, false, false⟩]
        false := by
  constructor
  · rfl
  · decide

/-- C6 (amended): every event dequeued at an iteration the coordinator reaches
(no earlier break) where the stop flag reads false at the post-get check is
yielded; only an event dequeued after the stop flag is observed set — even one
enqueued before the flag was set — is discarded, together with everything still
in the queue. -/
theorem c6_amended (pre : List CoordIter) (it : CoordIter) (post : List CoordIter)
    (ev : Event) (st : Status)
    (hpre : ∀ p ∈ pre, p.item.isSome = true ∧ p.stoppedAtGet = false ∧ p.stoppedAfter = false)
    (hit : it.item = some ev) (hstop : it.stoppedAtGet = false) :
    ev ∈ (coordLoop (pre ++ it :: post) st).1 := by
  induction pre generalizing st with
  | nil =>
    simp only [List.nil_append, coordLoop, hit, hstop]
    rw [if_neg (by simp)]
    split
    · simp
    · simp
  | cons p rest ih =>
    obtain ⟨h1, h2, h3⟩ := hpre p (by simp)
    obtain ⟨e, he⟩ := Option.isSome_iff_exists.mp h1
    have hmem := ih (updateStatus p.interruptedFlag e st)
        (fun q hq => hpre q (List.mem_cons_of_mem p hq))
    simp only [List.cons_append, coordLoop, he, h2, h3]
    rw [if_neg (by simp), if_neg (by simp)]
    exact List.mem_cons_of_mem e hmem

/-- C6 witness: the amended forwarding guarantee evaluated on a one-iteration
trace whose stop flag reads false. -/
theorem c6_witness :
    Event.nonFatalError "boom" true ∈
      (coordLoop
        ([] ++ (⟨some (Event.nonFatalError "boom" true), false, false, false, false⟩ : CoordIter) :: [])
        Status.success).1 :=
  c6_amended [] ⟨some (Event.nonFatalError "boom" true), false, false, false, false⟩ []
    (Event.nonFatalError "boom" true) Status.success (by simp) rfl rfl

/-- Every event the coordinator loop forwards was dequeued from the events
queue during some iteration of the trace. -/
lemma coordLoop_forwarded_mem :
    ∀ (trace : List CoordIter) (st : Status),
      ∀ ev ∈ (coordLoop trace st).1, ∃ it ∈ trace, it.item = some ev := by
  intro trace
  induction trace with
  | nil => intro st ev hev; simp [coordLoop] at hev
  | cons it rest ih =>
    intro st ev hev
    cases hitem : it.item with
    | none =>
      simp only [coordLoop, hitem] at hev
      split at hev
      · simp at hev
      · obtain ⟨it2, h2, h3⟩ := ih st ev hev
        exact ⟨it2, List.mem_cons_of_mem it h2, h3⟩
    | some e =>
      simp only [coordLoop, hitem] at hev
      split at hev
      · simp at hev
      · split at hev
        · simp only [List.mem_singleton] at hev
          exact ⟨it, List.mem_cons_self it rest, by rw [hitem, hev]⟩
        · rcases List.mem_cons.mp hev with h | h
          · exact ⟨it, List.mem_cons_self it rest, by rw [hitem, h]⟩
          · obtain ⟨it2, h2, h3⟩ :=
              ih (updateStatus it.interruptedFlag e st) ev h
            exact ⟨it2, List.mem_cons_of_mem it h2, h3⟩

/-- Worker-level events are never suite- or phase-level events. -/
lemma workerEvent_not_suite (ev : Event) (h : ev.isWorkerEvent = true) :
    ev.isSuiteStarted = false ∧ ev.isSuiteFinished = false ∧
    ev.isPhaseFinished = false := by
  cases ev <;> simp_all [Event.isWorkerEvent, Event.isSuiteStarted,
    Event.isSuiteFinished, Event.isPhaseFinished]

/-- C3: for every coordinator trace whose dequeued events are worker-level
events (as every event a worker enqueues is) and whether or not a
KeyboardInterrupt cuts the loop, the phase execution emits exactly one
SuiteStarted event and terminates with exactly one SuiteFinished event
immediately followed by exactly one PhaseFinished event, both carrying the same
final aggregate status; the worker count never appears in this path, so the
guarantee is independent of N ≥ 1. -/
theorem c3_suite_phase_events (trace : List CoordIter) (kb : Bool)
    (h : ∀ it ∈ trace, ∀ ev, it.item = some ev → ev.isWorkerEvent = true) :
    (executeModel trace kb).countP (fun ev => ev.isSuiteStarted) = 1 ∧
    (executeModel trace kb).countP (fun ev => ev.isSuiteFinished) = 1 ∧
    (executeModel trace kb).countP (fun ev => ev.isPhaseFinished) = 1 ∧
    ∃ (st : Status) (pre : List Event),
      executeModel trace kb = pre ++ [Event.suiteFinished st, Event.phaseFinished st] := by
  have hfwd : ∀ ev ∈ (coordLoop trace Status.success).1,
      ev.isSuiteStarted = false ∧ ev.isSuiteFinished = false ∧
      ev.isPhaseFinished = false := by
    intro ev hev
    obtain ⟨it, hit, hitem⟩ := coordLoop_forwarded_mem trace Status.success ev hev
    exact workerEvent_not_suite ev (h it hit ev hitem)
  have h0ss : List.countP (fun ev => ev.isSuiteStarted)
      (coordLoop trace Status.success).1 = 0 := by
    rw [List.countP_eq_zero]
    intro a ha
    simp [(hfwd a ha).1]
  have h0sf : List.countP (fun ev => ev.isSuiteFinished)
      (coordLoop trace Status.success).1 = 0 := by
    rw [List.countP_eq_zero]
    intro a ha
    simp [(hfwd a ha).2.1]
  have h0pf : List.countP (fun ev => ev.isPhaseFinished)
      (coordLoop trace Status.success).1 = 0 := by
    rw [List.countP_eq_zero]
    intro a ha
    simp [(hfwd a ha).2.2]
  cases kb with
  | false =>
    have hout : executeModel trace false =
        Event.suiteStarted :: ((coordLoop trace Status.success).1 ++
          ([] ++ [Event.suiteFinished (coordLoop trace Status.success).2,
            Event.phaseFinished (coordLoop trace Status.success).2])) := by
      simp [executeModel]
    refine ⟨?_, ?_, ?_, (coordLoop trace Status.success).2,
      Event.suiteStarted :: (coordLoop trace Status.success).1, ?_⟩
    · rw [hout, List.countP_cons, List.countP_append, List.countP_append, h0ss]
      simp [Event.isSuiteStarted, Event.isSuiteFinished, Event.isPhaseFinished,
        List.countP_cons]
    · rw [hout, List.countP_cons, List.countP_append, List.countP_append, h0sf]
      simp [Event.isSuiteStarted, Event.isSuiteFinished, Event.isPhaseFinished,
        List.countP_cons]
    · rw [hout, List.countP_cons, List.countP_append, List.countP_append, h0pf]
      simp [Event.isSuiteStarted, Event.isSuiteFinished, Event.isPhaseFinished,
        List.countP_cons]
    · rw [hout]
      simp
  | true =>
    have hout : executeModel trace true =
        Event.suiteStarted :: ((coordLoop trace Status.success).1 ++
          ([Event.interrupted] ++ [Event.suiteFinished Status.interrupted,
            Event.phaseFinished Status.interrupted])) := by
      simp [executeModel]
    refine ⟨?_, ?_, ?_, Status.interrupted,
      Event.suiteStarted :: ((coordLoop trace Status.success).1 ++ [Event.interrupted]), ?_⟩
    · rw [hout, List.countP_cons, List.countP_append, List.countP_append, h0ss]
      simp [Event.isSuiteStarted, Event.isSuiteFinished, Event.isPhaseFinished,
        List.countP_cons]
    · rw [hout, List.countP_cons, List.countP_append, List.countP_append, h0sf]
      simp [Event.isSuiteStarted, Event.isSuiteFinished, Event.isPhaseFinished,
        List.countP_cons]
    · rw [hout, List.countP_cons, List.countP_append, List.countP_append, h0pf]
      simp [Event.isSuiteStarted, Event.isSuiteFinished, Event.isPhaseFinished,
        List.countP_cons]
    · rw [hout]
      simp

/-- C3 witness: the suite/phase event counts evaluated on a concrete
one-iteration trace carrying a ScenarioFinished event. -/
theorem c3_witness :
    (executeModel [⟨some (Event.scenarioFinished Status.failure ⟨"L", 0⟩ true),
        false, false, false, false⟩] false).countP (fun ev => ev.isSuiteStarted) = 1 ∧
    (executeModel [⟨some (Event.scenarioFinished Status.failure ⟨"L", 0⟩ true),
        false, false, false, false⟩] false).countP (fun ev => ev.isSuiteFinished) = 1 ∧
    (executeModel [⟨some (Event.scenarioFinished Status.failure ⟨"L", 0⟩ true),
        false, false, false, false⟩] false).countP (fun ev => ev.isPhaseFinished) = 1 ∧
    ∃ (st : Status) (pre : List Event),
      executeModel [⟨some (Event.scenarioFinished Status.failure ⟨"L", 0⟩ true),
        false, false, false, false⟩] false =
        pre ++ [Event.suiteFinished st, Event.phaseFinished st] :=
  c3_suite_phase_events
    [⟨some (Event.scenarioFinished Status.failure ⟨"L", 0⟩ true), false, false, false, false⟩]
    false
    (by
      intro it hit ev hev
      simp only [List.mem_singleton] at hit
      subst hit
      simp only [Option.some.injEq] at hev
      subst hev
      rfl)

/-- The worker loop's output is exactly the concatenation of the events of the
items it dispatches (the maximal live prefix of its iterations). -/
lemma workerLoop_eq_flatMap :
    ∀ tr : List WorkerStep, workerLoop tr = (liveItems tr).flatMap processItem := by
  intro tr
  induction tr with
  | nil => rfl
  | cons s rest ih =>
    obtain ⟨b, o⟩ := s
    cases b with
    | true => simp [workerLoop, liveItems, List.takeWhile]
    | false =>
      cases o with
      | none => simp [workerLoop, liveItems, List.takeWhile]
      | some it =>
        simp only [workerLoop, liveItems, List.takeWhile, Bool.not_false,
          Option.isSome_some, Bool.and_self, List.filterMap, List.flatMap]
        simp only [liveItems, List.flatMap] at ih
        simp [ih]

/-- A worker that observes the stop flag at iteration `i` emits nothing from
iteration `i` on: its output equals the output over the first `i` iterations. -/
lemma workerLoop_stop_truncates :
    ∀ (tr : List WorkerStep) (i : Nat) (s : WorkerStep),
      tr.get? i = some s → s.1 = true → workerLoop tr = workerLoop (tr.take i) := by
  intro tr
  induction tr with
  | nil => intro i s h; simp at h
  | cons a rest ih =>
    intro i s h hs
    cases i with
    | zero =>
      have ha : a.1 = true := by
        simp only [List.get?] at h
        injection h with h2
        rw [h2]
        exact hs
      obtain ⟨b, o⟩ := a
      simp only at ha
      subst ha
      simp [workerLoop]
    | succ j =>
      simp only [List.get?] at h
      obtain ⟨b, o⟩ := a
      cases b with
      | true => simp [workerLoop, List.take]
      | false =>
        cases o with
        | none => simp [workerLoop, List.take]
        | some it =>
          simp only [workerLoop, List.take]
          rw [ih j s h hs]

/-- C5: if the stop flag reads true at some iteration `i` of a worker's loop,
the worker's entire output is that of its first `i` iterations, so no
ScenarioStarted (or any other event) is ever emitted for an operation not
dispatched before that observation; moreover every event of every dispatched
item — in particular the terminating ScenarioFinished of every dispatched
operation's scenario — is still emitted. -/
theorem c5_stop_flag (tr : List WorkerStep) (i : Nat) (s : WorkerStep)
    (hget : tr.get? i = some s) (hstop : s.1 = true) :
    workerLoop tr = workerLoop (tr.take i) ∧
    (∀ it ∈ liveItems tr, ∀ ev ∈ processItem it, ev ∈ workerLoop tr) ∧
    (∀ op : Operation, Item.ok op ∈ liveItems tr →
      Event.scenarioFinished (scenarioStatus op.cases) ⟨op.label, op.cases.length⟩ true ∈
        workerLoop tr) := by
  have hmem : ∀ it ∈ liveItems tr, ∀ ev ∈ processItem it, ev ∈ workerLoop tr := by
    intro it hit ev hev
    rw [workerLoop_eq_flatMap]
    exact List.mem_flatMap.mpr ⟨it, hit, hev⟩
  refine ⟨workerLoop_stop_truncates tr i s hget hstop, hmem, ?_⟩
  intro op hop
  refine hmem (Item.ok op) hop _ ?_
  simp [processItem, run_test]

/-- C5 witness: the truncation equality and event preservation evaluated on a
concrete two-iteration trace whose second iteration observes the stop flag. -/
theorem c5_witness :
    workerLoop [(false, some (Item.err ⟨none, "/pets"⟩)), (true, none)] =
      workerLoop ([(false, some (Item.err ⟨none, "/pets"⟩)), (true, none)].take 1) ∧
    (∀ it ∈ liveItems [(false, some (Item.err ⟨none, "/pets"⟩)), (true, none)],
      ∀ ev ∈ processItem it,
        ev ∈ workerLoop [(false, some (Item.err ⟨none, "/pets"⟩)), (true, none)]) ∧
    (∀ op : Operation,
      Item.ok op ∈ liveItems [(false, some (Item.err ⟨none, "/pets"⟩)), (true, none)] →
      Event.scenarioFinished (scenarioStatus op.cases) ⟨op.label, op.cases.length⟩ true ∈
        workerLoop [(false, some (Item.err ⟨none, "/pets"⟩)), (true, none)]) :=
  c5_stop_flag [(false, some (Item.err ⟨none, "/pets"⟩)), (true, none)] 1 (true, none)
    rfl rfl

/-- No event produced for an item is the Interrupted event. -/
lemma processItem_no_interrupted (it : Item) :
    ∀ ev ∈ processItem it, ev.isInterruptedEvent = false := by
  intro ev hev
  cases it with
  | ok op =>
    simp only [processItem, run_test, List.mem_cons, List.mem_append,
      List.mem_singleton, List.not_mem_nil, or_false] at hev
    rcases hev with h | h | h
    · subst h; rfl
    · obtain ⟨c, _, hc⟩ := List.mem_flatMap.mp h
      cases c <;> simp_all [caseEvents, Event.isInterruptedEvent]
    · subst h; rfl
  | err e =>
    obtain ⟨m, p⟩ := e
    cases m with
    | none =>
      simp only [processItem, errorEvents, List.mem_singleton] at hev
      subst hev; rfl
    | some m =>
      simp only [processItem, errorEvents] at hev
      split at hev
      · simp only [List.mem_cons, List.mem_singleton, List.not_mem_nil,
          or_false] at hev
        rcases hev with h | h | h <;> (subst h; rfl)
      · simp only [List.mem_singleton] at hev
        subst hev; rfl

/-- The worker loop never emits the Interrupted event. -/
lemma workerLoop_interrupted_count (tr : List WorkerStep) :
    (workerLoop tr).countP (fun ev => ev.isInterruptedEvent) = 0 := by
  rw [List.countP_eq_zero]
  intro a ha
  rw [workerLoop_eq_flatMap] at ha
  obtain ⟨it, _, hmem⟩ := List.mem_flatMap.mp ha
  simp [processItem_no_interrupted it a hmem]

/-- With no cancellation signal, `worker_task` returns the loop's events and no
exception. -/
lemma worker_task_none_eq (tr : List WorkerStep) :
    worker_task tr none = (workerLoop tr, none) := rfl

/-- With a cancellation signal after `k` iterations, `worker_task` returns the
truncated loop's events followed by one Interrupted event, and no exception. -/
lemma worker_task_some_eq (tr : List WorkerStep) (k : Nat) :
    worker_task tr (some k) =
      (workerLoop (tr.take k) ++ [Event.interrupted], none) := rfl

/-- C7: no exception escapes `worker_task` as an uncaught fault: the only
worker-level exception, KeyboardInterrupt, is caught and converted into exactly
one Interrupted event (and without it no Interrupted event is emitted at all),
while every unexpected exception raised while executing a case of a dispatched
operation is captured inside the executor and surfaces as a NonFatalError
event. -/
theorem c7_no_uncaught_fault (tr : List WorkerStep) (kb : Option Nat) :
    (worker_task tr kb).2 = none ∧
    (worker_task tr kb).1.countP (fun ev => ev.isInterruptedEvent) =
      (if kb.isSome then 1 else 0) ∧
    (∀ (op : Operation) (msg : String),
      Item.ok op ∈ liveItems (match kb with | none => tr | some k => tr.take k) →
      CaseResult.raised msg ∈ op.cases →
      Event.nonFatalError msg true ∈ (worker_task tr kb).1) := by
  cases kb with
  | none =>
    refine ⟨rfl, ?_, ?_⟩
    · simpa [worker_task, workerBody] using workerLoop_interrupted_count tr
    · intro op msg hop hmsg
      have : Event.nonFatalError msg true ∈ workerLoop tr := by
        rw [workerLoop_eq_flatMap]
        refine List.mem_flatMap.mpr ⟨Item.ok op, hop, ?_⟩
        simp only [processItem, run_test, List.mem_cons, List.mem_append]
        refine Or.inr (Or.inl (List.mem_flatMap.mpr ⟨CaseResult.raised msg, hmsg, ?_⟩))
        simp [caseEvents]
      simpa [worker_task, workerBody] using this
  | some k =>
    refine ⟨rfl, ?_, ?_⟩
    · rw [worker_task_some_eq, List.countP_append,
        workerLoop_interrupted_count (tr.take k)]
      rfl
    · intro op msg hop hmsg
      have hin : Event.nonFatalError msg true ∈ workerLoop (tr.take k) := by
        rw [workerLoop_eq_flatMap]
        refine List.mem_flatMap.mpr ⟨Item.ok op, hop, ?_⟩
        simp only [processItem, run_test, List.mem_cons, List.mem_append]
        refine Or.inr (Or.inl (List.mem_flatMap.mpr ⟨CaseResult.raised msg, hmsg, ?_⟩))
        simp [caseEvents]
      rw [worker_task_some_eq]
      exact List.mem_append_left _ hin

/-- C7 witness: the capture guarantees evaluated on a concrete trace with one
raising case and a KeyboardInterrupt after the first iteration. -/
theorem c7_witness :
    (worker_task [(false, some (Item.ok ⟨"GET /pets", [CaseResult.raised "boom"]⟩))]
      (some 1)).2 = none ∧
    (worker_task [(false, some (Item.ok ⟨"GET /pets", [CaseResult.raised "boom"]⟩))]
      (some 1)).1.countP (fun ev => ev.isInterruptedEvent) =
      (if (some 1 : Option Nat).isSome then 1 else 0) ∧
    (∀ (op : Operation) (msg : String),
      Item.ok op ∈ liveItems
        (match (some 1 : Option Nat) with
          | none => [(false, some (Item.ok ⟨"GET /pets", [CaseResult.raised "boom"]⟩))]
          | some k => [(false, some (Item.ok ⟨"GET /pets", [CaseResult.raised "boom"]⟩))].take k) →
      CaseResult.raised msg ∈ op.cases →
      Event.nonFatalError msg true ∈
        (worker_task [(false, some (Item.ok ⟨"GET /pets", [CaseResult.raised "boom"]⟩))]
          (some 1)).1) :=
  c7_no_uncaught_fault [(false, some (Item.ok ⟨"GET /pets", [CaseResult.raised "boom"]⟩))]
    (some 1)

/-! ## Aggregate status model (C1) -/

/-- One aggregate-status update step: the pair carries the `is_interrupted`
flag value read during the iteration and the event processed. -/
def aggStep (st : Status) (p : Bool × Event) : Status := updateStatus p.1 p.2 st

/-- The aggregate status after processing a sequence of events, starting from
SUCCESS as `execute` does. -/
def aggAfter (steps : List (Bool × Event)) : Status := steps.foldl aggStep Status.success

/-- The severity an event contributes to the aggregate: NonFatalError counts as
ERROR, ScenarioFinished counts as its own status, anything else as SUCCESS. -/
def eventSeverity : Event → Status
  | .nonFatalError _ _ => Status.error
  | .scenarioFinished s _ _ => s
  | _ => Status.success

/-- The severity one processed step contributes: INTERRUPTED when the
`is_interrupted` flag read true, otherwise the event's severity. -/
def contribution (p : Bool × Event) : Status :=
  if p.1 then Status.interrupted else eventSeverity p.2

/-- The maximum severity among the contributions of a processed sequence. -/
def maxFold (steps : List (Bool × Event)) : Status :=
  (steps.map contribution).foldl statusMax Status.success

/-- Every severity is at most the severity of INTERRUPTED. -/
lemma sev_le_three (st : Status) : sev st ≤ 3 := by cases st <;> simp [sev]

/-- When the interrupted flag reads true, the status update forces INTERRUPTED
regardless of the event and the current status. -/
lemma updateStatus_true (ev : Event) (st : Status) :
    updateStatus true ev st = Status.interrupted := by
  cases ev <;> simp [updateStatus]

/-- INTERRUPTED absorbs under the severity maximum. -/
lemma statusMax_interrupted (st : Status) :
    statusMax st Status.interrupted = Status.interrupted := by
  cases st <;> rfl

/-- With the interrupted flag false and the event not a ScenarioFinished of
INTERRUPTED status, one update step from a non-INTERRUPTED status is exactly
the severity maximum, stays below INTERRUPTED, and never decreases severity. -/
lemma updateStatus_step (ev : Event) (st : Status)
    (hst : st ≠ Status.interrupted) (hev : ev.isScenarioFinishedInterrupted = false) :
    updateStatus false ev st = statusMax st (eventSeverity ev) ∧
    updateStatus false ev st ≠ Status.interrupted ∧
    sev st ≤ sev (updateStatus false ev st) := by
  cases ev with
  | scenarioFinished s r f =>
    cases s <;> cases st <;>
      simp_all [updateStatus, statusMax, eventSeverity, sev,
        Event.isScenarioFinishedInterrupted]
  | nonFatalError l b =>
    cases st <;> simp_all [updateStatus, statusMax, eventSeverity, sev]
  | suiteStarted =>
    cases st <;> simp_all [updateStatus, statusMax, eventSeverity, sev]
  | scenarioStarted l =>
    cases st <;> simp_all [updateStatus, statusMax, eventSeverity, sev]
  | interrupted =>
    cases st <;> simp_all [updateStatus, statusMax, eventSeverity, sev]
  | suiteFinished s =>
    cases st <;> simp_all [updateStatus, statusMax, eventSeverity, sev]
  | phaseFinished s =>
    cases st <;> simp_all [updateStatus, statusMax, eventSeverity, sev]

/-- Over steps whose interrupted flag reads false and that carry no
ScenarioFinished of INTERRUPTED status, the aggregate fold agrees with the
severity-maximum fold, stays below INTERRUPTED, and never decreases. -/
lemma aggFold_pre :
    ∀ (pre : List (Bool × Event)) (st : Status),
      (∀ p ∈ pre, p.1 = false) →
      (∀ p ∈ pre, p.2.isScenarioFinishedInterrupted = false) →
      st ≠ Status.interrupted →
      pre.foldl aggStep st = (pre.map contribution).foldl statusMax st ∧
      pre.foldl aggStep st ≠ Status.interrupted ∧
      sev st ≤ sev (pre.foldl aggStep st) := by
  intro pre
  induction pre with
  | nil => intro st _ _ h3; exact ⟨rfl, h3, le_refl _⟩
  | cons p rest ih =>
    intro st h1 h2 h3
    have hp1 : p.1 = false := h1 p (by simp)
    have hp2 : p.2.isScenarioFinishedInterrupted = false := h2 p (by simp)
    obtain ⟨heq, hne, hle⟩ := updateStatus_step p.2 st h3 hp2
    have hstep : aggStep st p = updateStatus false p.2 st := by
      simp [aggStep, hp1]
    obtain ⟨ih1, ih2, ih3⟩ := ih (aggStep st p)
      (fun q hq => h1 q (List.mem_cons_of_mem p hq))
      (fun q hq => h2 q (List.mem_cons_of_mem p hq))
      (by rw [hstep]; exact hne)
    refine ⟨?_, ih2, ?_⟩
    · rw [List.foldl_cons, List.map_cons, List.foldl_cons, ih1]
      congr 1
      rw [hstep, heq]
      simp [contribution, hp1]
    · calc sev st ≤ sev (aggStep st p) := by rw [hstep]; exact hle
        _ ≤ sev (List.foldl aggStep (aggStep st p) rest) := ih3

/-- Over steps whose interrupted flag reads true, the aggregate fold lands on
INTERRUPTED as soon as the steps are nonempty. -/
lemma aggFold_post :
    ∀ (post : List (Bool × Event)) (st : Status),
      (∀ p ∈ post, p.1 = true) →
      post.foldl aggStep st = (if post.isEmpty then st else Status.interrupted) := by
  intro post
  induction post with
  | nil => intro st _; rfl
  | cons p rest ih =>
    intro st h
    have hp : p.1 = true := h p (by simp)
    have hstep : aggStep st p = Status.interrupted := by
      simp [aggStep, hp, updateStatus_true]
    rw [List.foldl_cons, hstep,
      ih Status.interrupted (fun q hq => h q (List.mem_cons_of_mem p hq))]
    simp

/-- Over steps whose interrupted flag reads true, the severity-maximum fold
also lands on INTERRUPTED as soon as the steps are nonempty. -/
lemma maxFold_post :
    ∀ (post : List (Bool × Event)) (st : Status),
      (∀ p ∈ post, p.1 = true) →
      (post.map contribution).foldl statusMax st =
        (if post.isEmpty then st else Status.interrupted) := by
  intro post
  induction post with
  | nil => intro st _; rfl
  | cons p rest ih =>
    intro st h
    have hp : contribution p = Status.interrupted := by
      simp [contribution, h p (by simp)]
    rw [List.map_cons, List.foldl_cons, hp, statusMax_interrupted,
      ih Status.interrupted (fun q hq => h q (List.mem_cons_of_mem p hq))]
    simp

/-- C1 counterexample: processing a ScenarioFinished with status INTERRUPTED
(with the interrupted flag unset) followed by a NonFatalError lowers the
aggregate from INTERRUPTED back to ERROR — the running aggregate is not
monotonic, a NonFatalError after INTERRUPTED does lower it, and the final
status is ERROR while the maximum severity among the observed events is
INTERRUPTED. -/
theorem c1_counterexample :
    aggAfter [(false, Event.scenarioFinished Status.interrupted ⟨"L", 0⟩ true)] =
      Status.interrupted ∧
    aggAfter [(false, Event.scenarioFinished Status.interrupted ⟨"L", 0⟩ true),
              (false, Event.nonFatalError "boom" true)] = Status.error ∧
    sev Status.error < sev Status.interrupted ∧
    maxFold [(false, Event.scenarioFinished Status.interrupted ⟨"L", 0⟩ true),
             (false, Event.nonFatalError "boom" true)] = Status.interrupted :=
  ⟨rfl, rfl, by decide, rfl⟩

/-- C1 (amended): provided the interrupted flag is monotone across the phase
(the iterations split into a flag-false prefix followed by a flag-true suffix)
and every ScenarioFinished carrying INTERRUPTED status is processed while the
flag reads true, the final aggregate status equals the maximum severity among
the per-step contributions (NonFatalError counts as ERROR, ScenarioFinished as
its own status, any step under the set flag as INTERRUPTED), the running
aggregate is monotonic non-decreasing in severity — so a NonFatalError
processed after the aggregate reached INTERRUPTED never lowers it — and
INTERRUPTED takes precedence over ERROR within the same polling cycle. -/
theorem c1_amended (pre post : List (Bool × Event))
    (hpre : ∀ p ∈ pre, p.1 = false)
    (hpost : ∀ p ∈ post, p.1 = true)
    (hsf : ∀ p ∈ pre ++ post, p.2.isScenarioFinishedInterrupted = true → p.1 = true) :
    aggAfter (pre ++ post) = maxFold (pre ++ post) ∧
    (∀ l₁ l₂ : List (Bool × Event), pre ++ post = l₁ ++ l₂ →
      sev (aggAfter l₁) ≤ sev (aggAfter (pre ++ post))) ∧
    (∀ (ev : Event) (st : Status), updateStatus true ev st = Status.interrupted) := by
  have hpre2 : ∀ p ∈ pre, p.2.isScenarioFinishedInterrupted = false := by
    intro p hp
    by_contra hc
    have ht := hsf p (List.mem_append_left post hp) (by simpa using hc)
    rw [hpre p hp] at ht
    exact Bool.false_ne_true ht
  obtain ⟨hA, hAne, _⟩ := aggFold_pre pre Status.success hpre hpre2 (by decide)
  refine ⟨?_, ?_, fun ev st => updateStatus_true ev st⟩
  · simp only [aggAfter, maxFold]
    rw [List.foldl_append, List.map_append, List.foldl_append,
      aggFold_post post _ hpost, maxFold_post post _ hpost, hA]
  · intro l₁ l₂ hsplit
    rcases List.append_eq_append_iff.mp hsplit with ⟨m, hm1, hm2⟩ | ⟨m, hm1, hm2⟩
    · -- pre is a prefix of l₁ : l₁ = pre ++ m, post = m ++ l₂
      subst hm1
      subst hm2
      have hmt : ∀ p ∈ m, p.1 = true :=
        fun p hp => hpost p (List.mem_append_left l₂ hp)
      simp only [aggAfter]
      rw [List.foldl_append, List.foldl_append,
        aggFold_post m _ hmt, aggFold_post (m ++ l₂) _ hpost]
      cases m with
      | nil =>
        simp only [List.isEmpty_nil, if_true, List.nil_append]
        split
        · exact le_refl _
        · simpa [sev] using sev_le_three (List.foldl aggStep Status.success pre)
      | cons q qs =>
        simp only [List.isEmpty_cons, List.cons_append, Bool.false_eq_true, if_false]
        exact le_refl _
    · -- l₁ is a prefix of pre : pre = l₁ ++ m, l₂ = m ++ post
      subst hm1
      have hl1f : ∀ p ∈ l₁, p.1 = false :=
        fun p hp => hpre p (List.mem_append_left m hp)
      have hl1sf : ∀ p ∈ l₁, p.2.isScenarioFinishedInterrupted = false :=
        fun p hp => hpre2 p (List.mem_append_left m hp)
      have hmf : ∀ p ∈ m, p.1 = false :=
        fun p hp => hpre p (List.mem_append_right l₁ hp)
      have hmsf : ∀ p ∈ m, p.2.isScenarioFinishedInterrupted = false :=
        fun p hp => hpre2 p (List.mem_append_right l₁ hp)
      obtain ⟨_, hBne, _⟩ := aggFold_pre l₁ Status.success hl1f hl1sf (by decide)
      obtain ⟨_, hCne, hBC⟩ :=
        aggFold_pre m (List.foldl aggStep Status.success l₁) hmf hmsf hBne
      simp only [aggAfter]
      rw [List.append_assoc, List.foldl_append, List.foldl_append,
        aggFold_post post _ hpost]
      split
      · exact hBC
      · simpa [sev] using sev_le_three (List.foldl aggStep Status.success l₁)

/-- C1 witness: the amended maximum-severity equation evaluated on a concrete
flag-false/flag-true trace. -/
theorem c1_witness :
    aggAfter ([(false, Event.scenarioFinished Status.failure ⟨"L", 0⟩ true)] ++
        [(true, Event.nonFatalError "boom" true)]) =
      maxFold ([(false, Event.scenarioFinished Status.failure ⟨"L", 0⟩ true)] ++
        [(true, Event.nonFatalError "boom" true)]) :=
  (c1_amended [(false, Event.scenarioFinished Status.failure ⟨"L", 0⟩ true)]
    [(true, Event.nonFatalError "boom" true)]
    (by decide) (by decide) (by decide)).1

/-! ## Resource path matcher theorems (C8) -/

/-- Corresponding-segment matching holds iff the fold relates the segments at
every index below both lengths. -/
lemma segmentsMatch_iff :
    ∀ (ls rs : List String),
      segmentsMatch ls rs = true ↔
        ∀ (i : Nat) (h1 : i < ls.length) (h2 : i < rs.length),
          segmentEq (ls.get ⟨i, h1⟩) (rs.get ⟨i, h2⟩) = true := by
  intro ls
  induction ls with
  | nil =>
    intro rs
    constructor
    · intro _ i h1 h2
      exact absurd h1 (by simp)
    · intro _
      rfl
  | cons a as_ ih =>
    intro rs
    cases rs with
    | nil =>
      constructor
      · intro _ i h1 h2
        exact absurd h2 (by simp)
      · intro _
        rfl
    | cons b bs =>
      simp only [segmentsMatch, Bool.and_eq_true]
      constructor
      · rintro ⟨hab, hrest⟩ i h1 h2
        cases i with
        | zero => exact hab
        | succ j =>
          exact (ih bs).mp hrest j (Nat.lt_of_succ_lt_succ h1)
            (Nat.lt_of_succ_lt_succ h2)
      · intro h
        refine ⟨h 0 (by simp) (by simp), (ih bs).mpr ?_⟩
        intro j hj1 hj2
        exact h (j + 1) (Nat.succ_lt_succ hj1) (Nat.succ_lt_succ hj2)

/-- The fold on two segments holds iff they are equal or equal up to one
trailing `s` added on either side. -/
lemma segmentEq_iff (a b : String) :
    segmentEq a b = true ↔ (a = b ∨ a ++ "s" = b ∨ a = b ++ "s") := by
  simp [segmentEq, or_assoc]

/-- C8: LHS is a prefix of RHS iff, after normalizing (one trailing slash
stripped), splitting into segments and substituting placeholder segments with
their bound values coerced to string form, LHS's segment count is at most RHS's
and every corresponding segment is equal exactly or up to one trailing `s`
added or removed; in particular `/users/\x7bid\x7d` with id=123 is a prefix of
`/users/\x7bid\x7d/details` with id=123 but not with id=456, and
`/user/\x7bid\x7d` folds onto `/users/\x7bid\x7d` at id=123. -/
theorem c8_resource_path_matcher :
    (∀ lhs rhs : ResourcePath,
        is_prefix_operation lhs rhs = true ↔
          ((segments lhs).length ≤ (segments rhs).length ∧
            ∀ (i : Nat) (h1 : i < (segments lhs).length)
                (h2 : i < (segments rhs).length),
              (segments lhs).get ⟨i, h1⟩ = (segments rhs).get ⟨i, h2⟩ ∨
              (segments lhs).get ⟨i, h1⟩ ++ "s" = (segments rhs).get ⟨i, h2⟩ ∨
              (segments lhs).get ⟨i, h1⟩ = (segments rhs).get ⟨i, h2⟩ ++ "s")) ∧
    is_prefix_operation ⟨"/users/{id}", [("id", Value.str "123")]⟩
      ⟨"/users/{id}/details", [("id", Value.str "123")]⟩ = true ∧
    is_prefix_operation ⟨"/users/{id}", [("id", Value.str "123")]⟩
      ⟨"/users/{id}/details", [("id", Value.str "456")]⟩ = false ∧
    is_prefix_operation ⟨"/user/{id}", [("id", Value.str "123")]⟩
      ⟨"/users/{id}", [("id", Value.str "123")]⟩ = true := by
  refine ⟨?_, by decide, by decide, by decide⟩
  intro lhs rhs
  rw [is_prefix_operation]
  simp only [Bool.and_eq_true, decide_eq_true_eq, segmentsMatch_iff]
  constructor
  · rintro ⟨hlen, hmatch⟩
    exact ⟨hlen, fun i h1 h2 => (segmentEq_iff _ _).mp (hmatch i h1 h2)⟩
  · rintro ⟨hlen, hmatch⟩
    exact ⟨hlen, fun i h1 h2 => (segmentEq_iff _ _).mpr (hmatch i h1 h2)⟩

/-- C8 witness: the matcher evaluated at the spec's concrete example. -/
theorem c8_witness :
    is_prefix_operation ⟨"/users/{id}", [("id", Value.str "123")]⟩
      ⟨"/users/{id}/details", [("id", Value.str "123")]⟩ = true :=
  c8_resource_path_matcher.2.1

/-! ## positive_data_acceptance theorems (C9) -/

/-- A digit sequence matches itself character-wise. -/
lemma matchChars_self : ∀ ds : List Char, matchChars ds ds = true := by
  intro ds
  induction ds with
  | nil => rfl
  | cons d rest ih => simp [matchChars, ih]

/-- C9: `positive_data_acceptance` raises iff the case was generated in
POSITIVE mode and the response status matches no allow-list entry; a NEGATIVE
case never raises; a returned failure's title mentions rejected positive data;
an exact three-digit entry matches its own code, and the wildcard `2XX`
matches exactly the statuses 200-299; status 200 against `["2XX","4XX"]`
passes while status 300 fails. -/
theorem c9_positive_data_acceptance_check :
    (∀ (allowed : List String) (code : Nat),
        (positive_data_acceptance allowed GenerationMode.positive code).isSome = true ↔
          ¬ ∃ e ∈ allowed, entryMatches e code = true) ∧
    (∀ (allowed : List String) (code : Nat),
        positive_data_acceptance allowed GenerationMode.negative code = none) ∧
    (∀ (allowed : List String) (mode : GenerationMode) (code : Nat) (f : Failure),
        positive_data_acceptance allowed mode code = some f →
          f.title = "Rejected positive data") ∧
    (∀ code : Nat, entryMatches (String.mk (codeDigits code)) code = true) ∧
    (∀ code : Nat, code ≤ 999 →
        (entryMatches "2XX" code = true ↔ 200 ≤ code ∧ code ≤ 299)) ∧
    positive_data_acceptance ["2XX", "4XX"] GenerationMode.positive 200 = none ∧
    positive_data_acceptance ["2XX", "4XX"] GenerationMode.positive 300 =
      some ⟨"Rejected positive data"⟩ := by
  refine ⟨?_, fun _ _ => rfl, ?_, ?_, ?_, by decide, by decide⟩
  · intro allowed code
    by_cases h : (allowed.any fun e => entryMatches e code) = true
    · have hn : positive_data_acceptance allowed GenerationMode.positive code = none := by
        simp [positive_data_acceptance, h]
      rw [hn]
      simp only [Option.isSome_none, Bool.false_eq_true, false_iff, not_not]
      obtain ⟨e, he, hm⟩ := List.any_eq_true.mp h
      exact ⟨e, he, hm⟩
    · have hfalse : (allowed.any fun e => entryMatches e code) = false := by
        revert h
        cases allowed.any fun e => entryMatches e code <;> simp
      have hs : positive_data_acceptance allowed GenerationMode.positive code =
          some ⟨"Rejected positive data"⟩ := by
        simp [positive_data_acceptance, hfalse]
      rw [hs]
      simp only [Option.isSome_some, true_iff]
      rintro ⟨e, he, hm⟩
      exact h (List.any_eq_true.mpr ⟨e, he, hm⟩)
  · intro allowed mode code f h
    cases mode with
    | negative => exact absurd h (by simp [positive_data_acceptance])
    | positive =>
      simp only [positive_data_acceptance] at h
      split at h
      · exact absurd h (by simp)
      · injection h with h2
        rw [← h2]
  · intro code
    exact matchChars_self (codeDigits code)
  · intro code hcode
    have hd : code / 100 % 10 < 10 := Nat.mod_lt _ (by norm_num)
    have hchar : ∀ d : Nat, d < 10 → (('2' == Nat.digitChar d) = true ↔ d = 2) := by
      decide
    have hX1 : ('X' == 'X') = true := by decide
    have h2X : ('2' == 'X') = false := by decide
    have hbridge : entryMatches "2XX" code =
        ('2' == Nat.digitChar (code / 100 % 10)) := by
      show (('2' == 'X' || '2' == Nat.digitChar (code / 100 % 10)) &&
            (('X' == 'X' || 'X' == Nat.digitChar (code / 10 % 10)) &&
              (('X' == 'X' || 'X' == Nat.digitChar (code % 10)) && true)))
          = ('2' == Nat.digitChar (code / 100 % 10))
      rw [hX1, h2X]
      simp
    rw [hbridge, hchar _ hd]
    omega

/-- C9 witness: the wildcard-range characterization applied at status 250, and
the unconditional NEGATIVE-mode exemption applied at a concrete allow-list. -/
theorem c9_witness :
    (entryMatches "2XX" 250 = true ↔ 200 ≤ 250 ∧ 250 ≤ 299) ∧
    positive_data_acceptance ["2XX", "4XX"] GenerationMode.negative 300 = none :=
  ⟨c9_positive_data_acceptance_check.2.2.2.2.1 250 (by decide),
   c9_positive_data_acceptance_check.2.1 ["2XX", "4XX"] 300⟩

/-! ## has_only_additional_properties theorems (C10) -/

/-- C10: the check returns true iff at least one non-body component was
generated in NEGATIVE mode and every negatively generated non-body component's
only deviation from its declared schema is the presence of undeclared extra
keys; POSITIVE or absent components are ignored. A negatively generated query
`\x7b"key": 5, "unknown": 3\x7d` with declared minimum 5 on `key` returns true,
the same with `key` below its minimum returns false, and cases with no
negatively generated non-body component (none at all, or only the body)
return false. -/
theorem c10_has_only_additional_properties :
    (∀ (op : OperationSchema) (c : TestCase),
        has_only_additional_properties_in_non_body_parameters op c = true ↔
          ((∃ k ∈ nonBodyKinds, componentMode c k = some GenerationMode.negative) ∧
            ∀ k ∈ nonBodyKinds, componentMode c k = some GenerationMode.negative →
              onlyAdditionalProperties (op.params k) (componentValues c k) = true)) ∧
    has_only_additional_properties_in_non_body_parameters sampleSchema
      ⟨[(ComponentKind.query, GenerationMode.negative)],
        [("key", Value.int 5), ("unknown", Value.int 3)], [], [], []⟩ = true ∧
    has_only_additional_properties_in_non_body_parameters sampleSchema
      ⟨[(ComponentKind.query, GenerationMode.negative)],
        [("key", Value.int 1), ("unknown", Value.int 3)], [], [], []⟩ = false ∧
    has_only_additional_properties_in_non_body_parameters sampleSchema
      ⟨[], [], [], [], []⟩ = false ∧
    has_only_additional_properties_in_non_body_parameters sampleSchema
      ⟨[(ComponentKind.body, GenerationMode.negative)], [], [], [], []⟩ = false := by
  refine ⟨?_, by decide, by decide, by decide, by decide⟩
  intro op c
  simp only [has_only_additional_properties_in_non_body_parameters, Bool.and_eq_true,
    Bool.not_eq_true']
  constructor
  · rintro ⟨hne, hall⟩
    refine ⟨?_, ?_⟩
    · have hnil : nonBodyKinds.filter
          (fun k => componentMode c k == some GenerationMode.negative) ≠ [] := by
        intro hnil
        rw [hnil] at hne
        simp at hne
      obtain ⟨k, hk⟩ := List.exists_mem_of_ne_nil _ hnil
      have hk2 := List.mem_filter.mp hk
      exact ⟨k, hk2.1, by simpa using hk2.2⟩
    · intro k hk hmode
      have hkf : k ∈ nonBodyKinds.filter
          (fun k => componentMode c k == some GenerationMode.negative) :=
        List.mem_filter.mpr ⟨hk, by simp [hmode]⟩
      exact List.all_eq_true.mp hall k hkf
  · rintro ⟨⟨k, hk, hmode⟩, hall⟩
    have hkf : k ∈ nonBodyKinds.filter
        (fun k => componentMode c k == some GenerationMode.negative) :=
      List.mem_filter.mpr ⟨hk, by simp [hmode]⟩
    refine ⟨?_, ?_⟩
    · cases hfil : nonBodyKinds.filter
          (fun k => componentMode c k == some GenerationMode.negative) with
      | nil => rw [hfil] at hkf; simp at hkf
      | cons a l => rfl
    · rw [List.all_eq_true]
      intro x hx
      have hx2 := List.mem_filter.mp hx
      exact hall x hx2.1 (by simpa using hx2.2)

/-- C10 witness: the check evaluated at the spec's concrete example. -/
theorem c10_witness :
    has_only_additional_properties_in_non_body_parameters sampleSchema
      ⟨[(ComponentKind.query, GenerationMode.negative)],
        [("key", Value.int 5), ("unknown", Value.int 3)], [], [], []⟩ = true :=
  c10_has_only_additional_properties.2.1

end Schemathesis
